import Mathlib

/-!
Verification of the citest predicate/query evaluation core.

The development shallowly embeds:
  * the JSON-like value model traversed by `PathPredicate`
    (`src/citest/json_predicate/path_predicate.py` is exercised by
    `src/tests/json_predicate/path_predicate_test.py`; the implementation
    module itself is absent from the repository snapshot, so the traversal
    engine below is modelled from the specification, checked against the
    test expectations),
  * `ValueObservationVerifier.__call__` from
    `src/citest/json_contract/value_observation_verifier.py`.
-/

/-- A JSON-like value: the untyped tree-shaped data the predicates traverse.
Dicts are ordered association lists (Python dict lookup finds the unique
binding for a key; first match here). -/
inductive JVal where
  | str : String → JVal
  | num : Int → JVal
  | bool : Bool → JVal
  | dict : List (String × JVal) → JVal
  | arr : List JVal → JVal
  | null : JVal

namespace JVal

/-- Whether a value is a list (Python `isinstance(value, list)`). -/
def isArr : JVal → Bool
  | .arr _ => true
  | _ => false

mutual

/-- Boolean structural equality of values (Python `==` on parsed JSON). -/
def beq : JVal → JVal → Bool
  | .str x, .str y => x == y
  | .num x, .num y => x == y
  | .bool x, .bool y => x == y
  | .dict x, .dict y => beqKV x y
  | .arr x, .arr y => beqList x y
  | .null, .null => true
  | _, _ => false

/-- Boolean structural equality of dict entry lists. -/
def beqKV : List (String × JVal) → List (String × JVal) → Bool
  | [], [] => true
  | (k1, v1) :: r1, (k2, v2) :: r2 => k1 == k2 && beq v1 v2 && beqKV r1 r2
  | _, _ => false

/-- Boolean structural equality of value lists. -/
def beqList : List JVal → List JVal → Bool
  | [], [] => true
  | x :: xs, y :: ys => beq x y && beqList xs ys
  | _, _ => false

end

mutual

theorem eq_of_beq : ∀ (a b : JVal), beq a b = true → a = b := fun a b h => by
  cases a <;> cases b <;> simp [beq] at h
  case str.str x y => rw [h]
  case num.num x y => rw [h]
  case bool.bool x y => rw [h]
  case dict.dict x y => rw [eqKV_of_beq x y h]
  case arr.arr x y => rw [eqList_of_beq x y h]
  case null.null => rfl

theorem eqKV_of_beq : ∀ (a b : List (String × JVal)), beqKV a b = true → a = b :=
  fun a b h => by
  match a, b with
  | [], [] => rfl
  | [], _ :: _ => simp [beqKV] at h
  | _ :: _, [] => simp [beqKV] at h
  | (k1, v1) :: r1, (k2, v2) :: r2 =>
      simp only [beqKV, Bool.and_eq_true, beq_iff_eq] at h
      obtain ⟨⟨hk, hv⟩, hr⟩ := h
      rw [hk, eq_of_beq v1 v2 hv, eqKV_of_beq r1 r2 hr]

theorem eqList_of_beq : ∀ (a b : List JVal), beqList a b = true → a = b :=
  fun a b h => by
  match a, b with
  | [], [] => rfl
  | [], _ :: _ => simp [beqList] at h
  | _ :: _, [] => simp [beqList] at h
  | x :: xs, y :: ys =>
      simp only [beqList, Bool.and_eq_true] at h
      obtain ⟨hv, hr⟩ := h
      rw [eq_of_beq x y hv, eqList_of_beq xs ys hr]

end

mutual

theorem beq_refl : ∀ (a : JVal), beq a a = true := fun a => by
  cases a
  case str x => simp [beq]
  case num x => simp [beq]
  case bool x => simp [beq]
  case dict x => simp [beq, beqKV_refl x]
  case arr x => simp [beq, beqList_refl x]
  case null => simp [beq]

theorem beqKV_refl : ∀ (a : List (String × JVal)), beqKV a a = true := fun a => by
  match a with
  | [] => rfl
  | (k, v) :: r =>
      simp only [beqKV, Bool.and_eq_true]
      exact ⟨⟨by simp, beq_refl v⟩, beqKV_refl r⟩

theorem beqList_refl : ∀ (a : List JVal), beqList a a = true := fun a => by
  match a with
  | [] => rfl
  | x :: xs =>
      simp only [beqList, Bool.and_eq_true]
      exact ⟨beq_refl x, beqList_refl xs⟩

end

instance : DecidableEq JVal := fun a b =>
  decidable_of_iff (beq a b = true)
    ⟨eq_of_beq a b, fun h => h ▸ beq_refl a⟩

end JVal

/-- One parsed step of a slash-separated path: a plain dict key or a
bracketed non-negative list index `[N]`. -/
inductive PathStep where
  | key : String → PathStep
  | index : Nat → PathStep
deriving DecidableEq

/-- A resolved (path-string, value) pair. -/
structure PathValue where
  path : String
  value : JVal
deriving DecidableEq

/-- Rendering of a bracketed index, e.g. `[2]`. -/
def renderIndex (i : Nat) : String :=
  "[" ++ toString i ++ "]"

/-- Extend a path string with a dict key: keys are joined by the `/`
separator, except that the empty path takes the key directly. -/
def extendKey (p : String) (k : String) : String :=
  if p = "" then k else p ++ "/" ++ k

/-- Extend a path string with a list index: `[i]` is appended with no
separator before the bracket. -/
def extendIndex (p : String) (i : Nat) : String :=
  p ++ renderIndex i

/-- The canonical rendering of a parsed step sequence back to a path
string (used as the `target_path` of filter results). -/
def renderSteps (steps : List PathStep) : String :=
  steps.foldl (fun p s => match s with
    | .key k => extendKey p k
    | .index i => extendIndex p i) ""

/-- The outcome of applying a filter predicate to one resolved PathValue:
`{predicate, source, target_path, path_value, valid}`.  The `pred` field
stores the filter that produced the result (when one was involved). -/
structure PathValueResult where
  pred : Option (JVal → Bool)
  source : JVal
  targetPath : String
  pathValue : PathValue
  valid : Bool

/-- An entry of a `PathPredicateResult`'s failure sequence: either a
`MissingPathError` `{source, missing_key, path_value}` recording a failed
traversal step, or a `PathValueResult` recording a resolved value rejected
by the filter predicate. -/
inductive PathFailure where
  | missing : JVal → String → PathValue → PathFailure
  | valueResult : PathValueResult → PathFailure

namespace PathFailure

/-- Whether a failure entry is a `MissingPathError` record. -/
def isMissing : PathFailure → Bool
  | .missing _ _ _ => true
  | .valueResult _ => false

end PathFailure

/-- Aggregate result of one PathPredicate application: the ordered
successful path values, the ordered failures, and the overall truth value
(valid iff at least one filter-accepted path value exists). -/
structure PathPredicateResult where
  pathValues : List PathValue
  pathFailures : List PathFailure
  valid : Bool

/-- Python dict lookup on the association-list representation. -/
def lookupKey (k : String) : List (String × JVal) → Option JVal
  | [] => none
  | (k2, v) :: rest => if k2 = k then some v else lookupKey k rest

mutual

/-- Modelled from the spec (§4.1 step 2, `path_predicate.py` is not in the
snapshot): apply a plain key step to one frontier entry.  A dict is looked
up (missing key emits a `MissingPathError` anchored at the entry); a list
branches, re-applying the same key to each element under an indexed path
(ambiguity resolution in list order); any other value is a type mismatch
reported as a `MissingPathError`. -/
def applyKey (k : String) (p : String) (v : JVal) :
    List PathValue × List PathFailure :=
  match v with
  | .arr xs => applyKeyList k p 0 xs
  | .dict kvs =>
      match lookupKey k kvs with
      | some w => ([⟨extendKey p k, w⟩], [])
      | none => ([], [.missing (.dict kvs) k ⟨p, .dict kvs⟩])
  | w => ([], [.missing w k ⟨p, w⟩])

/-- Branch a key step over the elements of a list, starting at index `i`,
accumulating successes and failures in list order. -/
def applyKeyList (k : String) (p : String) (i : Nat) (xs : List JVal) :
    List PathValue × List PathFailure :=
  match xs with
  | [] => ([], [])
  | x :: rest =>
      let r1 := applyKey k (extendIndex p i) x
      let r2 := applyKeyList k p (i + 1) rest
      (r1.1 ++ r2.1, r1.2 ++ r2.2)

end

/-- Modelled from the spec (§4.1 step 2): apply a bracketed index step to
one frontier entry.  Requires a list with the index in range; an
out-of-range index or a non-list value emits a `MissingPathError` instead
of crashing. -/
def applyIndex (i : Nat) (p : String) (v : JVal) :
    List PathValue × List PathFailure :=
  match v with
  | .arr xs =>
      match xs[i]? with
      | some w => ([⟨extendIndex p i, w⟩], [])
      | none => ([], [.missing (.arr xs) (renderIndex i) ⟨p, .arr xs⟩])
  | w => ([], [.missing w (renderIndex i) ⟨p, w⟩])

/-- Apply one path step to one frontier entry. -/
def applyStep (s : PathStep) (pv : PathValue) :
    List PathValue × List PathFailure :=
  match s with
  | .key k => applyKey k pv.path pv.value
  | .index i => applyIndex i pv.path pv.value

/-- Apply one path step across the whole frontier, in frontier order. -/
def applyStepFrontier (s : PathStep) :
    List PathValue → List PathValue × List PathFailure
  | [] => ([], [])
  | pv :: rest =>
      let r1 := applyStep s pv
      let r2 := applyStepFrontier s rest
      (r1.1 ++ r2.1, r1.2 ++ r2.2)

/-- Modelled from the spec (§4.1 steps 1-2): consume the path steps,
maintaining a frontier of (path-so-far, current-value) pairs and
accumulating every branch failure (report-everything, not fail-fast). -/
def traverseSteps (steps : List PathStep) (frontier : List PathValue) :
    List PathValue × List PathFailure :=
  match steps with
  | [] => (frontier, [])
  | s :: rest =>
      let r1 := applyStepFrontier s frontier
      let r2 := traverseSteps rest r1.1
      (r2.1, r1.2 ++ r2.2)

/-- Index-annotate the elements of a list under a base path, used by
terminal enumeration of a list value. -/
def enumIdx (p : String) (i : Nat) : List JVal → List PathValue
  | [] => []
  | x :: rest => ⟨extendIndex p i, x⟩ :: enumIdx p (i + 1) rest

/-- Modelled from the spec (§4.1 step 3, §9): a surviving frontier entry
whose value is a list is expanded one level into one PathValue per element
unless the do-not-enumerate terminal marker was present. -/
def expandTerminal (dontEnum : Bool) (pv : PathValue) : List PathValue :=
  if dontEnum then [pv]
  else
    match pv.value with
    | .arr xs => enumIdx pv.path 0 xs
    | _ => [pv]

/-- Expand every surviving frontier entry (terminal enumeration), keeping
frontier order. -/
def collectExpand (dontEnum : Bool) : List PathValue → List PathValue
  | [] => []
  | pv :: rest => expandTerminal dontEnum pv ++ collectExpand dontEnum rest

/-- Modelled from the spec (§4.1, `path_predicate.py` is not in the
snapshot): full PathPredicate evaluation over parsed steps.  Traverses the
root, applies terminal enumeration, then the optional filter predicate:
accepted candidates form `path_values`, rejected candidates are recorded
in `path_failures` as `PathValueResult`s with `valid = false` (behaviour
pinned by `test_collect_filter_good`).  The overall result is valid iff at
least one accepted path value exists. -/
def resolve (steps : List PathStep) (dontEnum : Bool)
    (filter : Option (JVal → Bool)) (root : JVal) : PathPredicateResult :=
  let t := traverseSteps steps [⟨"", root⟩]
  let candidates := collectExpand dontEnum t.1
  match filter with
  | none =>
      { pathValues := candidates
        pathFailures := t.2
        valid := !candidates.isEmpty }
  | some f =>
      let good := candidates.filter (fun pv => f pv.value)
      let rejected := (candidates.filter (fun pv => !f pv.value)).map
        (fun pv => PathFailure.valueResult
          ⟨some f, root, renderSteps steps, pv, false⟩)
      { pathValues := good
        pathFailures := t.2 ++ rejected
        valid := !good.isEmpty }

/-- The reserved do-not-enumerate terminal marker character (modelled from
the spec, which reserves a marker character without naming it). -/
def dontEnumerateChar : Char := '!'

/-- The reserved do-not-enumerate terminal marker. -/
def DONT_ENUMERATE_TERMINAL : String := String.mk [dontEnumerateChar]

/-- The reserved path separator character. -/
def pathSepChar : Char := '/'

/-- The reserved path separator. -/
def PATH_SEP : String := String.mk [pathSepChar]

/-- Digits of a bracketed index to the index value. -/
def natOfDigits (ds : List Char) : Nat :=
  ds.foldl (fun n c => 10 * n + (c.toNat - 48)) 0

/-- Split a character stream at the path separator. -/
def splitSegs : List Char → List (List Char)
  | [] => [[]]
  | c :: rest =>
      if c = pathSepChar then [] :: splitSegs rest
      else
        match splitSegs rest with
        | [] => [[c]]
        | seg :: segs => (c :: seg) :: segs

/-- Modelled from the spec (§4.1 path syntax): scan one slash-separated
segment into steps.  A segment is a plain key optionally followed by
bracketed indices (e.g. `outer[1]`, `[1][0]`); `inIndex` says whether the
scanner is inside a bracket and `acc` holds the characters of the current
token in reverse. -/
def segLoop (inIndex : Bool) (acc : List Char) : List Char → List PathStep
  | [] =>
      if inIndex then [.index (natOfDigits acc.reverse)]
      else if acc.isEmpty then [] else [.key (String.mk acc.reverse)]
  | c :: rest =>
      if inIndex then
        if c = ']' then
          .index (natOfDigits acc.reverse) :: segLoop false [] rest
        else segLoop true (c :: acc) rest
      else
        if c = '[' then
          (if acc.isEmpty then [] else [.key (String.mk acc.reverse)])
            ++ segLoop true [] rest
        else segLoop false (c :: acc) rest

/-- Modelled from the spec (§4.1 path syntax): parse a full path string
into steps plus the do-not-enumerate flag.  Steps are separated by `/`;
empty segments are ignored (so the empty path and the bare separator both
mean the root); a trailing marker sets the flag without contributing a
step. -/
def parsePath (path : String) : List PathStep × Bool :=
  let cs := path.toList
  let stripped :=
    if cs.getLast? = some dontEnumerateChar then (cs.dropLast, true)
    else (cs, false)
  ((splitSegs stripped.1).foldr (fun s acc => segLoop false [] s ++ acc) [],
    stripped.2)

/-- A PathPredicate: a path specification plus an optional filter
predicate applied to the resolved values. -/
structure PathPredicate where
  path : String
  pred : Option (JVal → Bool)

namespace PathPredicate

/-- Apply a PathPredicate to a root value (the source's `__call__`). -/
def call (pp : PathPredicate) (root : JVal) : PathPredicateResult :=
  let parsed := parsePath pp.path
  resolve parsed.1 parsed.2 pp.pred root

end PathPredicate

/-- An observation: the collected object list plus any collection-time
errors (errors are opaque to the core; modelled as strings). -/
structure Observation where
  objects : List JVal
  errors : List String

/-- A constraint of a `ValueObservationVerifier`: a plain ValuePredicate
over a single value (the source wraps it in `PathPredicate('', constraint)`
before applying it to the object list). -/
abbrev Constraint := JVal → Bool

/-- An entry of an `ObservationVerifyResult`'s bad results: either a
failed per-constraint result, or the `ObservationFailedError`-style record
wrapping the observation's own errors. -/
inductive BadResult where
  | predicateResult : PathPredicateResult → BadResult
  | observationFailed : List String → BadResult

/-- `ObservationVerifyResult`: the frozen outcome of one verification. -/
structure ObservationVerifyResult where
  valid : Bool
  observation : Observation
  goodResults : List PathPredicateResult
  badResults : List BadResult
  failedConstraints : List Constraint
  comment : Option String
  validatedObjectSet : List JVal

/-- Evaluate one constraint against the object list: the source wraps a
plain ValuePredicate as `path_predicate.PathPredicate('', constraint)` and
applies it to `object_list`
(`value_observation_verifier.py` lines 199-203). -/
def evalConstraint (objs : List JVal) (c : Constraint) : PathPredicateResult :=
  resolve [] false (some c) (.arr objs)

/-- Mutable state of the verification loop: the running overall validity
plus the result builder's accumulated sequences.  The builder
(`ObservationVerifyResultBuilder`, not in the snapshot) is modelled from
the spec: every per-constraint result is recorded, valid ones under
good results and invalid ones under bad results. -/
structure VerifyState where
  valid : Bool
  allResults : List PathPredicateResult
  goodResults : List PathPredicateResult
  badResults : List BadResult
  failedConstraints : List Constraint

/-- One iteration of the constraint loop
(`value_observation_verifier.py` lines 195-209): evaluate the constraint,
append it to `failed_constraints` and clear the overall flag when the
result is falsy, and always record the result. -/
def verifyOne (objs : List JVal) (st : VerifyState) (c : Constraint) :
    VerifyState :=
  let r := evalConstraint objs c
  if r.valid then
    { st with
        allResults := st.allResults ++ [r]
        goodResults := st.goodResults ++ [r] }
  else
    { valid := false
      allResults := st.allResults ++ [r]
      goodResults := st.goodResults
      badResults := st.badResults ++ [.predicateResult r]
      failedConstraints := st.failedConstraints ++ [c] }

/-- The constraint loop over the whole constraint list, in declaration
order. -/
def verifyLoop (objs : List JVal) (cs : List Constraint) : VerifyState :=
  cs.foldl (verifyOne objs)
    { valid := true
      allResults := []
      goodResults := []
      badResults := []
      failedConstraints := [] }

/-- The object list actually verified: the observation's objects, or the
single synthetic `[None]` when there are none
(`value_observation_verifier.py` lines 177-187). -/
def objectListOf (observation : Observation) : List JVal :=
  if observation.objects.isEmpty then [.null] else observation.objects

/-- All successfully matched values across the recorded per-constraint
results, in order. -/
def collectValues : List PathPredicateResult → List JVal
  | [] => []
  | r :: rest => r.pathValues.map (fun pv => pv.value) ++ collectValues rest

/-- Modelled from the spec (§3, the builder is not in the snapshot): the
`validated_object_set` is the set of distinct objects matched by at least
one successful constraint sub-result. -/
def validatedObjects (results : List PathPredicateResult) : List JVal :=
  (collectValues results).dedup

/-- `ValueObservationVerifier.__call__`
(`value_observation_verifier.py` lines 166-221).  A non-empty error list
short-circuits into the synthetic invalid result; otherwise every
constraint is evaluated against the object list, and under strict mode a
passing run is additionally required to have validated as many distinct
objects as were presented.  The strict-shortfall comment is only logged by
the source, so the built result's comment stays unset. -/
def verify (strict : Bool) (constraints : List Constraint)
    (observation : Observation) : ObservationVerifyResult :=
  if observation.errors.isEmpty then
    let objectList := objectListOf observation
    let st := verifyLoop objectList constraints
    let validated := validatedObjects st.allResults
    let finalValid :=
      if st.valid && strict then validated.length == objectList.length
      else st.valid
    { valid := finalValid
      observation := observation
      goodResults := st.goodResults
      badResults := st.badResults
      failedConstraints := st.failedConstraints
      comment := none
      validatedObjectSet := validated }
  else
    { valid := false
      observation := observation
      goodResults := []
      badResults := [.observationFailed observation.errors]
      failedConstraints := []
      comment := some "Observation Failed."
      validatedObjectSet := [] }

/-- Dict lookup step: the value found for a key on a dict, `none` on a
missing key or a non-dict value. -/
def keyOf (k : String) : JVal → Option JVal
  | .dict kvs => lookupKey k kvs
  | _ => none

/-- The test fixture `_LETTER_DICT` of the repository's test suites. -/
def LETTER_DICT : JVal :=
  .dict [("a", .str "A"), ("b", .str "B"), ("z", .str "Z")]

/-- The test fixture `_NUMBER_DICT` of the repository's test suites. -/
def NUMBER_DICT : JVal :=
  .dict [("a", .num 1), ("b", .num 2), ("three", .num 3)]

/-! ### Helper lemmas about the traversal engine -/

/-- A non-list entry survives terminal enumeration unchanged. -/
theorem expandTerminal_not_arr (d : Bool) (pv : PathValue)
    (h : pv.value.isArr = false) : expandTerminal d pv = [pv] := by
  unfold expandTerminal
  cases d with
  | true => simp
  | false =>
      obtain ⟨p, v⟩ := pv
      cases v <;> simp_all [JVal.isArr]

/-- Terminal enumeration is the identity on a frontier of non-list
values. -/
theorem collectExpand_of_not_arr (d : Bool) :
    ∀ l : List PathValue, (∀ pv ∈ l, pv.value.isArr = false) →
      collectExpand d l = l := by
  intro l h
  induction l with
  | nil => rfl
  | cons pv rest ih =>
      rw [collectExpand, expandTerminal_not_arr d pv (h pv (by simp))]
      rw [ih (fun x hx => h x (by simp [hx]))]
      rfl

/-- The values enumerated from a list are the list itself. -/
theorem enumIdx_map_value (p : String) :
    ∀ (xs : List JVal) (i : Nat),
      (enumIdx p i xs).map (fun pv => pv.value) = xs := by
  intro xs
  induction xs with
  | nil => intro i; rfl
  | cons x rest ih => intro i; simp [enumIdx, ih]

/-- Filtering the enumerated entries of a list by a value predicate and
projecting the values equals filtering the list itself. -/
theorem enumIdx_filter_map_value (p : String) (c : JVal → Bool) :
    ∀ (xs : List JVal) (i : Nat),
      ((enumIdx p i xs).filter (fun pv => c pv.value)).map (fun pv => pv.value)
        = xs.filter c := by
  intro xs
  induction xs with
  | nil => intro i; rfl
  | cons x rest ih =>
      intro i
      rw [enumIdx, List.filter_cons, List.filter_cons]
      cases hx : c x <;> simp [hx, ih]

/-- Lists of equal length are empty together. -/
theorem isEmpty_eq_of_length_eq {α β : Type} (l1 : List α) (l2 : List β)
    (h : l1.length = l2.length) : l1.isEmpty = l2.isEmpty := by
  cases l1 <;> cases l2 <;> simp_all

/-- Splitting a list by a predicate accounts for every element. -/
theorem length_filter_add_length_filter_not {α : Type} (p : α → Bool) :
    ∀ l : List α,
      (l.filter p).length + (l.filter (fun x => !p x)).length = l.length := by
  intro l
  induction l with
  | nil => rfl
  | cons x rest ih =>
      rw [List.filter_cons, List.filter_cons]
      cases hx : p x <;> simp [hx] <;> omega

/-! ### C6: resolution of the empty path -/

/-- Empty-step resolution of a non-list root yields the single root
PathValue under either terminal-enumeration mode. -/
theorem resolve_nil_steps_not_arr (d : Bool) (root : JVal)
    (h : root.isArr = false) :
    resolve [] d none root =
      { pathValues := [⟨"", root⟩], pathFailures := [], valid := true } := by
  have he := expandTerminal_not_arr d ⟨"", root⟩ h
  simp [resolve, traverseSteps, collectExpand, he]

/-- C6 counterexample: with an empty path and a list root, the default
resolution enumerates one PathValue per element instead of producing the
single PathValue of the root itself, refuting the claim for list roots. -/
theorem c6_counterexample :
    (PathPredicate.call ⟨"", none⟩ (.arr [.str "A", .str "B"])).pathValues
        = [⟨"[0]", .str "A"⟩, ⟨"[1]", .str "B"⟩]
    ∧ (PathPredicate.call ⟨"", none⟩ (.arr [.str "A", .str "B"])).pathValues
        ≠ [⟨"", .arr [.str "A", .str "B"]⟩] := by
  constructor
  · rfl
  · decide

/-- C6 (amended): for every non-list root, a PathPredicate with the empty
path, or with the path that is just the separator, resolves to the root
itself as a single PathValue with empty path and no failures.  (For a list
root the default empty path instead enumerates the elements, as the
counterexample records; the single whole-root PathValue then requires the
do-not-enumerate terminal marker.) -/
theorem c6_empty_path_identity (root : JVal) (h : root.isArr = false) :
    (PathPredicate.call ⟨"", none⟩ root).pathValues = [⟨"", root⟩]
    ∧ (PathPredicate.call ⟨"", none⟩ root).pathFailures = []
    ∧ (PathPredicate.call ⟨PATH_SEP, none⟩ root).pathValues = [⟨"", root⟩]
    ∧ (PathPredicate.call ⟨PATH_SEP, none⟩ root).pathFailures = [] := by
  have h1 : parsePath "" = ([], false) := rfl
  have h2 : parsePath PATH_SEP = ([], false) := rfl
  unfold PathPredicate.call
  rw [h1, h2]
  rw [resolve_nil_steps_not_arr false root h]
  exact ⟨rfl, rfl, rfl, rfl⟩

/-- C6 witness: the amended identity at the letter-dict fixture. -/
theorem c6_empty_path_identity_witness :
    LETTER_DICT.isArr = false
    ∧ ((PathPredicate.call ⟨"", none⟩ LETTER_DICT).pathValues
          = [⟨"", LETTER_DICT⟩]
        ∧ (PathPredicate.call ⟨"", none⟩ LETTER_DICT).pathFailures = []
        ∧ (PathPredicate.call ⟨PATH_SEP, none⟩ LETTER_DICT).pathValues
          = [⟨"", LETTER_DICT⟩]
        ∧ (PathPredicate.call ⟨PATH_SEP, none⟩ LETTER_DICT).pathFailures
          = []) :=
  ⟨rfl, c6_empty_path_identity LETTER_DICT rfl⟩

/-! ### C7: terminal enumeration of a list value -/

/-- C7: when the path steps resolve to a single surviving frontier entry
holding a list, default resolution (no marker, `dontEnum = false`) emits
one PathValue per element with index-suffixed paths (`enumIdx p 0 xs` is
`[⟨p[0], xs 0⟩, ⟨p[1], xs 1⟩, …]`), while the do-not-enumerate terminal
marker (`dontEnum = true`) yields exactly one PathValue holding the whole
list; traversal failures are kept either way. -/
theorem c7_terminal_enumeration (steps : List PathStep) (root : JVal)
    (p : String) (xs : List JVal) (fails : List PathFailure)
    (h : traverseSteps steps [⟨"", root⟩] = ([⟨p, .arr xs⟩], fails)) :
    (resolve steps false none root).pathValues = enumIdx p 0 xs
    ∧ (resolve steps false none root).pathFailures = fails
    ∧ (resolve steps true none root).pathValues = [⟨p, .arr xs⟩]
    ∧ (resolve steps true none root).pathFailures = fails := by
  unfold resolve
  rw [h]
  simp [collectExpand, expandTerminal]

/-- C7 witness: the path `a` over `{a: [A, B, C]}`, as in
`test_collect_enumerated_terminal_list`. -/
theorem c7_terminal_enumeration_witness :
    traverseSteps [.key "a"]
        [⟨"", .dict [("a", .arr [.str "A", .str "B", .str "C"])]⟩]
      = ([⟨"a", .arr [.str "A", .str "B", .str "C"]⟩], [])
    ∧ ((resolve [.key "a"] false none
          (.dict [("a", .arr [.str "A", .str "B", .str "C"])])).pathValues
        = enumIdx "a" 0 [.str "A", .str "B", .str "C"]
      ∧ (resolve [.key "a"] false none
          (.dict [("a", .arr [.str "A", .str "B", .str "C"])])).pathFailures
        = []
      ∧ (resolve [.key "a"] true none
          (.dict [("a", .arr [.str "A", .str "B", .str "C"])])).pathValues
        = [⟨"a", .arr [.str "A", .str "B", .str "C"]⟩]
      ∧ (resolve [.key "a"] true none
          (.dict [("a", .arr [.str "A", .str "B", .str "C"])])).pathFailures
        = []) :=
  ⟨rfl, c7_terminal_enumeration [.key "a"] _ "a" _ [] rfl⟩

/-! ### C8: ambiguity accounting through an unindexed list -/

/-- On a non-list value, a key step yields exactly one success (when the
key resolves) or exactly one missing-path failure (when it does not). -/
theorem applyKey_cases (k p : String) (x : JVal) (hx : x.isArr = false) :
    (∃ w, keyOf k x = some w
        ∧ applyKey k p x = ([⟨extendKey p k, w⟩], []))
    ∨ (keyOf k x = none
        ∧ ∃ fl, applyKey k p x = ([], [fl]) ∧ fl.isMissing = true) := by
  cases x with
  | arr xs => simp [JVal.isArr] at hx
  | dict kvs =>
      cases hl : lookupKey k kvs with
      | some w =>
          left
          exact ⟨w, by simp [keyOf, hl], by simp [applyKey, hl]⟩
      | none =>
          right
          exact ⟨by simp [keyOf, hl],
            .missing (.dict kvs) k ⟨p, .dict kvs⟩, by simp [applyKey, hl], rfl⟩
  | str s =>
      right
      exact ⟨rfl, .missing (.str s) k ⟨p, .str s⟩, rfl, rfl⟩
  | num n =>
      right
      exact ⟨rfl, .missing (.num n) k ⟨p, .num n⟩, rfl, rfl⟩
  | bool b =>
      right
      exact ⟨rfl, .missing (.bool b) k ⟨p, .bool b⟩, rfl, rfl⟩
  | null =>
      right
      exact ⟨rfl, .missing .null k ⟨p, .null⟩, rfl, rfl⟩

/-- Branching a key step over a list of non-list elements yields exactly
one success per element on which the key resolves and one missing-path
failure per element on which it does not, and every success carries the
looked-up value. -/
theorem applyKeyList_accounting (k p : String) :
    ∀ (xs : List JVal), (∀ x ∈ xs, x.isArr = false) → ∀ (i : Nat),
      ((applyKeyList k p i xs).1.length
          = (xs.filter (fun x => (keyOf k x).isSome)).length
        ∧ (applyKeyList k p i xs).2.length
          = (xs.filter (fun x => (keyOf k x).isNone)).length)
      ∧ (∀ pf ∈ (applyKeyList k p i xs).2, pf.isMissing = true)
      ∧ (∀ pv ∈ (applyKeyList k p i xs).1,
          ∃ x ∈ xs, keyOf k x = some pv.value) := by
  intro xs
  induction xs with
  | nil =>
      intro _ i
      refine ⟨⟨rfl, rfl⟩, ?_, ?_⟩ <;> intro y hy <;> simp [applyKeyList] at hy
  | cons x rest ih =>
      intro h i
      have hx := h x (by simp)
      obtain ⟨⟨ih1, ih2⟩, ihm, ihv⟩ :=
        ih (fun y hy => h y (by simp [hy])) (i + 1)
      rcases applyKey_cases k (extendIndex p i) x hx with
        ⟨w, hk, he⟩ | ⟨hk, fl, he, hm⟩
      · rw [applyKeyList, he]
        refine ⟨⟨?_, ?_⟩, ?_, ?_⟩
        · simp [List.filter_cons, hk, ih1]
        · simp [List.filter_cons, hk, ih2]
        · intro pf hpf
          exact ihm pf (by simpa using hpf)
        · intro pv hpv
          rcases (by simpa using hpv : pv = ⟨extendKey (extendIndex p i) k, w⟩
              ∨ pv ∈ (applyKeyList k p (i + 1) rest).1) with hpv1 | hpv2
          · exact ⟨x, by simp, by rw [hpv1, hk]⟩
          · obtain ⟨y, hy, hky⟩ := ihv pv hpv2
            exact ⟨y, by simp [hy], hky⟩
      · rw [applyKeyList, he]
        refine ⟨⟨?_, ?_⟩, ?_, ?_⟩
        · simp [List.filter_cons, hk, ih1]
        · simp [List.filter_cons, hk, ih2]
        · intro pf hpf
          rcases (by simpa using hpf : pf = fl
              ∨ pf ∈ (applyKeyList k p (i + 1) rest).2) with hpf1 | hpf2
          · rw [hpf1]; exact hm
          · exact ihm pf hpf2
        · intro pv hpv
          obtain ⟨y, hy, hky⟩ := ihv pv (by simpa using hpv)
          exact ⟨y, by simp [hy], hky⟩

/-- A single key step over a list root reduces to the branched key
application (the frontier has one entry, the whole list, which the key
step distributes over). -/
theorem resolve_single_key_arr (k : String) (xs : List JVal)
    (hnoarr : ∀ pv ∈ (applyKeyList k "" 0 xs).1, pv.value.isArr = false) :
    resolve [.key k] false none (.arr xs) =
      { pathValues := (applyKeyList k "" 0 xs).1
        pathFailures := (applyKeyList k "" 0 xs).2
        valid := !(applyKeyList k "" 0 xs).1.isEmpty } := by
  have h0 : traverseSteps [.key k] [⟨"", .arr xs⟩]
      = ((applyKeyList k "" 0 xs).1, (applyKeyList k "" 0 xs).2) := by
    simp [traverseSteps, applyStepFrontier, applyStep, applyKey]
  unfold resolve
  rw [h0]
  simp only [collectExpand_of_not_arr false _ hnoarr]

/-- An option is `none` exactly when it is not `some`. -/
theorem isNone_eq_not_isSome (o : Option JVal) : o.isNone = !o.isSome := by
  cases o <;> rfl

/-- C8: a path traversing through an unindexed list whose remaining path
is a single key lookup produces one successful PathValue per element on
which the key resolves and one `MissingPathError` per element on which it
does not, with every failing branch collected: successes plus failing
branches account for every element of the list.  (Hypotheses: the
elements are not themselves lists, and the values the key resolves to are
not lists, so neither nested branching nor terminal enumeration changes
the per-element counts.) -/
theorem c8_ambiguity_accounting (k : String) (xs : List JVal)
    (h1 : ∀ x ∈ xs, x.isArr = false)
    (h2 : ∀ x ∈ xs, ((keyOf k x).getD .null).isArr = false) :
    (resolve [.key k] false none (.arr xs)).pathValues.length
        = (xs.filter (fun x => (keyOf k x).isSome)).length
    ∧ (resolve [.key k] false none (.arr xs)).pathFailures.length
        = (xs.filter (fun x => (keyOf k x).isNone)).length
    ∧ (resolve [.key k] false none (.arr xs)).pathValues.length
          + (resolve [.key k] false none (.arr xs)).pathFailures.length
        = xs.length
    ∧ ∀ pf ∈ (resolve [.key k] false none (.arr xs)).pathFailures,
        pf.isMissing = true := by
  obtain ⟨⟨hlen1, hlen2⟩, hmiss, hvals⟩ := applyKeyList_accounting k "" xs h1 0
  have hnoarr : ∀ pv ∈ (applyKeyList k "" 0 xs).1, pv.value.isArr = false := by
    intro pv hpv
    obtain ⟨x, hx, hkx⟩ := hvals pv hpv
    have h3 := h2 x hx
    rw [hkx] at h3
    simpa using h3
  rw [resolve_single_key_arr k xs hnoarr]
  refine ⟨hlen1, hlen2, ?_, hmiss⟩
  rw [hlen1, hlen2]
  have hfn : xs.filter (fun x => (keyOf k x).isNone)
      = xs.filter (fun x => !(keyOf k x).isSome) := by
    apply List.filter_congr
    intro x _
    exact isNone_eq_not_isSome (keyOf k x)
  rw [hfn]
  exact length_filter_add_length_filter_not (fun x => (keyOf k x).isSome) xs

/-- C8 witness: the key `z` branched over `[LETTER_DICT, NUMBER_DICT]`
(the `test_collect_from_nested_list_found` shape): one success and one
missing-path failure, accounting for both elements. -/
theorem c8_ambiguity_accounting_witness :
    (∀ x ∈ [LETTER_DICT, NUMBER_DICT], x.isArr = false)
    ∧ (∀ x ∈ [LETTER_DICT, NUMBER_DICT],
        ((keyOf "z" x).getD .null).isArr = false)
    ∧ ((resolve [.key "z"] false none
          (.arr [LETTER_DICT, NUMBER_DICT])).pathValues.length
        = (([LETTER_DICT, NUMBER_DICT].filter
            (fun x => (keyOf "z" x).isSome))).length
      ∧ (resolve [.key "z"] false none
          (.arr [LETTER_DICT, NUMBER_DICT])).pathFailures.length
        = (([LETTER_DICT, NUMBER_DICT].filter
            (fun x => (keyOf "z" x).isNone))).length
      ∧ (resolve [.key "z"] false none
            (.arr [LETTER_DICT, NUMBER_DICT])).pathValues.length
          + (resolve [.key "z"] false none
            (.arr [LETTER_DICT, NUMBER_DICT])).pathFailures.length
        = [LETTER_DICT, NUMBER_DICT].length
      ∧ ∀ pf ∈ (resolve [.key "z"] false none
          (.arr [LETTER_DICT, NUMBER_DICT])).pathFailures,
          pf.isMissing = true) :=
  ⟨by decide, by decide,
    c8_ambiguity_accounting "z" [LETTER_DICT, NUMBER_DICT]
      (by decide) (by decide)⟩

/-! ### C9 and C10: the filter predicate -/

/-- C9 counterexample: with the filter `value == 2` over `outer/b` on
`{outer: [LETTER_DICT, NUMBER_DICT]}` (the `test_collect_filter_good`
input), two candidates resolve but only the filter-accepted one remains
in `path_values`, refuting the claim that rejected candidates stay
there. -/
theorem c9_counterexample :
    (resolve [.key "outer", .key "b"] false
        (some (fun v => JVal.beq v (.num 2)))
        (.dict [("outer", .arr [LETTER_DICT, NUMBER_DICT])])).pathValues
      = [⟨"outer[1]/b", .num 2⟩]
    ∧ (resolve [.key "outer", .key "b"] false none
        (.dict [("outer", .arr [LETTER_DICT, NUMBER_DICT])])).pathValues
      = [⟨"outer[0]/b", .str "B"⟩, ⟨"outer[1]/b", .num 2⟩] :=
  ⟨rfl, rfl⟩

/-- C9 (amended): candidates rejected by the filter predicate are removed
from `path_values` (which keeps exactly the filter-accepted candidates,
in order) and are tracked in `path_failures` instead, so that accepted
values plus rejected records still account for every resolved
candidate. -/
theorem c9_filter_keeps_only_accepted (steps : List PathStep) (d : Bool)
    (f : JVal → Bool) (root : JVal) :
    (resolve steps d (some f) root).pathValues
      = ((resolve steps d none root).pathValues).filter (fun pv => f pv.value)
    ∧ (resolve steps d (some f) root).pathValues.length
        + ((resolve steps d none root).pathValues.filter
            (fun pv => !f pv.value)).length
      = (resolve steps d none root).pathValues.length
    ∧ (resolve steps d (some f) root).pathFailures.length
      = (resolve steps d none root).pathFailures.length
        + ((resolve steps d none root).pathValues.filter
            (fun pv => !f pv.value)).length := by
  unfold resolve
  refine ⟨rfl, ?_, ?_⟩
  · exact length_filter_add_length_filter_not _ _
  · simp

/-- C10: every candidate that resolves along the path but is rejected by
the filter predicate contributes a `PathValueResult` record with
`valid = false` to `path_failures`, appended after the traversal's
`MissingPathError`s — so `path_failures` is not restricted to missing-path
records. -/
theorem c10_filter_rejections_recorded (steps : List PathStep) (d : Bool)
    (f : JVal → Bool) (root : JVal) :
    (resolve steps d (some f) root).pathFailures
      = (resolve steps d none root).pathFailures
        ++ (((resolve steps d none root).pathValues.filter
              (fun pv => !f pv.value)).map
            (fun pv => PathFailure.valueResult
              ⟨some f, root, renderSteps steps, pv, false⟩)) := by
  unfold resolve
  rfl

/-! ### Helper lemmas about the verifier -/

/-- A list is empty exactly when it is `[]`. -/
theorem isEmpty_true_iff {α : Type} (l : List α) :
    l.isEmpty = true ↔ l = [] := by
  cases l <;> simp

/-- A list is non-empty exactly when it has at least one element. -/
theorem isEmpty_false_iff {α : Type} (l : List α) :
    l.isEmpty = false ↔ 1 ≤ l.length := by
  cases l <;> simp

/-- Closed form of the constraint loop from an arbitrary builder state:
every constraint is evaluated in declaration order, results are recorded
(valid ones as good, invalid ones as bad), invalid constraints are
appended to the failed list, and validity is the conjunction. -/
theorem foldl_verifyOne (objs : List JVal) :
    ∀ (cs : List Constraint) (st : VerifyState),
      List.foldl (verifyOne objs) st cs =
        { valid := st.valid && cs.all (fun c => (evalConstraint objs c).valid)
          allResults := st.allResults ++ cs.map (evalConstraint objs)
          goodResults := st.goodResults
            ++ (cs.map (evalConstraint objs)).filter (fun r => r.valid)
          badResults := st.badResults
            ++ ((cs.map (evalConstraint objs)).filter
                (fun r => !r.valid)).map BadResult.predicateResult
          failedConstraints := st.failedConstraints
            ++ cs.filter (fun c => !(evalConstraint objs c).valid) } := by
  intro cs
  induction cs with
  | nil => intro st; simp
  | cons c rest ih =>
      intro st
      rw [List.foldl_cons, ih]
      unfold verifyOne
      cases h : (evalConstraint objs c).valid <;>
        simp [h, List.filter_cons, Bool.and_assoc]

/-- Closed form of the constraint loop. -/
theorem verifyLoop_spec (objs : List JVal) (cs : List Constraint) :
    verifyLoop objs cs =
      { valid := cs.all (fun c => (evalConstraint objs c).valid)
        allResults := cs.map (evalConstraint objs)
        goodResults := (cs.map (evalConstraint objs)).filter (fun r => r.valid)
        badResults := ((cs.map (evalConstraint objs)).filter
            (fun r => !r.valid)).map BadResult.predicateResult
        failedConstraints :=
          cs.filter (fun c => !(evalConstraint objs c).valid) } := by
  unfold verifyLoop
  rw [foldl_verifyOne]
  simp

/-- The wrapped empty-path evaluation of a constraint enumerates the
object list, keeps the objects accepted by the constraint as path values
under bracketed index paths, and records the rejected ones. -/
theorem evalConstraint_spec (objs : List JVal) (c : Constraint) :
    evalConstraint objs c =
      { pathValues := (enumIdx "" 0 objs).filter (fun pv => c pv.value)
        pathFailures := ((enumIdx "" 0 objs).filter
            (fun pv => !c pv.value)).map
          (fun pv => PathFailure.valueResult ⟨some c, .arr objs, "", pv, false⟩)
        valid := !((enumIdx "" 0 objs).filter
            (fun pv => c pv.value)).isEmpty } := by
  unfold evalConstraint resolve traverseSteps
  simp [collectExpand, expandTerminal, renderSteps]

/-- The values a constraint's per-object evaluation accepts are exactly
the objects satisfying the constraint, in order. -/
theorem evalConstraint_values (objs : List JVal) (c : Constraint) :
    (evalConstraint objs c).pathValues.map (fun pv => pv.value)
      = objs.filter c := by
  rw [evalConstraint_spec]
  exact enumIdx_filter_map_value "" c objs 0

/-- A constraint's per-object evaluation is truthy iff some object
satisfies the constraint. -/
theorem evalConstraint_valid (objs : List JVal) (c : Constraint) :
    (evalConstraint objs c).valid = !(objs.filter c).isEmpty := by
  rw [evalConstraint_spec]
  have h := congrArg List.length (enumIdx_filter_map_value "" c objs 0)
  rw [List.length_map] at h
  rw [isEmpty_eq_of_length_eq _ _ h]

/-- Unfolding of `verify` when the observation carries no errors. -/
theorem verify_no_errors (strict : Bool) (cs : List Constraint)
    (obs : Observation) (h : obs.errors = []) :
    verify strict cs obs =
      { valid :=
          if (verifyLoop (objectListOf obs) cs).valid && strict
          then (validatedObjects
              (verifyLoop (objectListOf obs) cs).allResults).length
            == (objectListOf obs).length
          else (verifyLoop (objectListOf obs) cs).valid
        observation := obs
        goodResults := (verifyLoop (objectListOf obs) cs).goodResults
        badResults := (verifyLoop (objectListOf obs) cs).badResults
        failedConstraints :=
          (verifyLoop (objectListOf obs) cs).failedConstraints
        comment := none
        validatedObjectSet :=
          validatedObjects (verifyLoop (objectListOf obs) cs).allResults } := by
  unfold verify
  rw [h]
  rfl

/-- With a single constraint, the validated object set is the deduplicated
list of objects satisfying it. -/
theorem validated_single (objs : List JVal) (c : Constraint) :
    validatedObjects (verifyLoop objs [c]).allResults
      = (objs.filter c).dedup := by
  rw [verifyLoop_spec]
  simp [validatedObjects, collectValues, evalConstraint_values]

/-! ### C2: observation errors short-circuit -/

/-- C2: an observation whose error sequence is non-empty short-circuits
verification into an invalid result holding exactly one
`ObservationFailedError`-style failure wrapping those errors, with empty
good results and empty failed constraints; no constraint is evaluated
(the result does not depend on the constraint list at all). -/
theorem c2_errors_short_circuit (strict : Bool) (cs : List Constraint)
    (obs : Observation) (h : obs.errors ≠ []) :
    verify strict cs obs =
      { valid := false
        observation := obs
        goodResults := []
        badResults := [.observationFailed obs.errors]
        failedConstraints := []
        comment := some "Observation Failed."
        validatedObjectSet := [] }
    ∧ verify strict cs obs = verify strict [] obs := by
  have he : obs.errors.isEmpty = false := by
    cases hh : obs.errors with
    | nil => exact absurd hh h
    | cons a as => rfl
  have heq : ∀ cs2 : List Constraint, verify strict cs2 obs =
      { valid := false
        observation := obs
        goodResults := []
        badResults := [.observationFailed obs.errors]
        failedConstraints := []
        comment := some "Observation Failed."
        validatedObjectSet := [] } := by
    intro cs2
    unfold verify
    rw [he]
    rfl
  exact ⟨heq cs, (heq cs).trans (heq []).symm⟩

/-- C2 witness: a concrete observation with one collection error. -/
theorem c2_errors_short_circuit_witness :
    (["collection failed"] ≠ ([] : List String))
    ∧ (verify true [fun v => JVal.beq v .null] ⟨[], ["collection failed"]⟩ =
        { valid := false
          observation := ⟨[], ["collection failed"]⟩
          goodResults := []
          badResults := [.observationFailed ["collection failed"]]
          failedConstraints := []
          comment := some "Observation Failed."
          validatedObjectSet := [] }
      ∧ verify true [fun v => JVal.beq v .null] ⟨[], ["collection failed"]⟩
        = verify true [] ⟨[], ["collection failed"]⟩) :=
  ⟨by decide,
    c2_errors_short_circuit true [fun v => JVal.beq v .null]
      ⟨[], ["collection failed"]⟩ (by decide)⟩

/-! ### C4: every constraint evaluated, no short-circuit -/

/-- C4: every constraint is evaluated in declaration order with no
short-circuit: the good and bad result sequences together record one
result per constraint in order (valid ones good, invalid ones bad), each
invalid constraint is appended to `failed_constraints`, and — before the
strict-mode object-coverage check, i.e. with `strict = false` — the
overall result is invalid iff at least one constraint result is
invalid. -/
theorem c4_no_short_circuit (strict : Bool) (cs : List Constraint)
    (obs : Observation) (h : obs.errors = []) :
    (verify strict cs obs).goodResults
        = (cs.map (evalConstraint (objectListOf obs))).filter
            (fun r => r.valid)
    ∧ (verify strict cs obs).badResults
        = ((cs.map (evalConstraint (objectListOf obs))).filter
            (fun r => !r.valid)).map BadResult.predicateResult
    ∧ (verify strict cs obs).failedConstraints
        = cs.filter (fun c => !(evalConstraint (objectListOf obs) c).valid)
    ∧ ((verify false cs obs).valid = false
        ↔ ∃ c ∈ cs, (evalConstraint (objectListOf obs) c).valid = false) := by
  rw [verify_no_errors strict cs obs h, verify_no_errors false cs obs h,
    verifyLoop_spec]
  refine ⟨rfl, rfl, rfl, ?_⟩
  simp only [Bool.and_false, Bool.false_eq_true, if_false]
  constructor
  · intro hv
    by_contra hc
    push_neg at hc
    have : cs.all (fun c => (evalConstraint (objectListOf obs) c).valid)
        = true := by
      rw [List.all_eq_true]
      intro c hcmem
      cases hcv : (evalConstraint (objectListOf obs) c).valid with
      | false => exact absurd hcv (hc c hcmem)
      | true => rfl
    rw [this] at hv
    exact absurd hv (by simp)
  · intro ⟨c, hcmem, hcv⟩
    cases hall : cs.all (fun c => (evalConstraint (objectListOf obs) c).valid)
      with
    | false => rfl
    | true =>
        rw [List.all_eq_true] at hall
        rw [hall c hcmem] at hcv
        exact absurd hcv (by simp)

/-- C4 witness: one passing and one failing constraint over a one-object
observation. -/
theorem c4_no_short_circuit_witness :
    (Observation.mk [.str "A"] []).errors = []
    ∧ ((verify true [fun v => JVal.beq v (.str "A"),
          fun v => JVal.beq v (.str "B")] ⟨[.str "A"], []⟩).goodResults
        = (([fun v => JVal.beq v (.str "A"),
            fun v => JVal.beq v (.str "B")].map
            (evalConstraint (objectListOf ⟨[.str "A"], []⟩))).filter
            (fun r => r.valid))
      ∧ (verify true [fun v => JVal.beq v (.str "A"),
          fun v => JVal.beq v (.str "B")] ⟨[.str "A"], []⟩).badResults
        = ((([fun v => JVal.beq v (.str "A"),
            fun v => JVal.beq v (.str "B")].map
            (evalConstraint (objectListOf ⟨[.str "A"], []⟩))).filter
            (fun r => !r.valid)).map BadResult.predicateResult)
      ∧ (verify true [fun v => JVal.beq v (.str "A"),
          fun v => JVal.beq v (.str "B")] ⟨[.str "A"], []⟩).failedConstraints
        = ([fun v => JVal.beq v (.str "A"),
            fun v => JVal.beq v (.str "B")].filter
            (fun c => !(evalConstraint (objectListOf ⟨[.str "A"], []⟩)
              c).valid))
      ∧ ((verify false [fun v => JVal.beq v (.str "A"),
            fun v => JVal.beq v (.str "B")] ⟨[.str "A"], []⟩).valid = false
          ↔ ∃ c ∈ [fun v => JVal.beq v (.str "A"),
              fun v => JVal.beq v (.str "B")],
              (evalConstraint (objectListOf ⟨[.str "A"], []⟩) c).valid
                = false)) :=
  ⟨rfl, c4_no_short_circuit true
    [fun v => JVal.beq v (.str "A"), fun v => JVal.beq v (.str "B")]
    ⟨[.str "A"], []⟩ rfl⟩

/-! ### C5: empty object list verified against [None] -/

/-- C5: an observation with no objects and no errors is verified by
evaluating every constraint against the single-element list `[None]`
rather than skipping constraint evaluation: the recorded results are the
per-constraint evaluations over `[JVal.null]`, one result per constraint
in total. -/
theorem c5_empty_objects_verify_null (strict : Bool) (cs : List Constraint)
    (obs : Observation) (h1 : obs.objects = []) (h2 : obs.errors = []) :
    (verify strict cs obs).goodResults
        = (cs.map (evalConstraint [JVal.null])).filter (fun r => r.valid)
    ∧ (verify strict cs obs).badResults
        = ((cs.map (evalConstraint [JVal.null])).filter
            (fun r => !r.valid)).map BadResult.predicateResult
    ∧ (verify strict cs obs).failedConstraints
        = cs.filter (fun c => !(evalConstraint [JVal.null] c).valid)
    ∧ (verify strict cs obs).goodResults.length
        + (verify strict cs obs).badResults.length = cs.length := by
  have hL : objectListOf obs = [JVal.null] := by
    unfold objectListOf
    rw [h1]
    rfl
  rw [verify_no_errors strict cs obs h2, verifyLoop_spec, hL]
  refine ⟨rfl, rfl, rfl, ?_⟩
  simp only [List.length_map]
  rw [length_filter_add_length_filter_not (fun r => r.valid)
    (cs.map (evalConstraint [JVal.null]))]
  exact List.length_map cs (evalConstraint [JVal.null])

/-- C5 witness: one satisfied and one unsatisfied constraint over an
empty observation. -/
theorem c5_empty_objects_verify_null_witness :
    (Observation.mk [] []).objects = []
    ∧ (Observation.mk [] []).errors = []
    ∧ ((verify false [fun v => JVal.beq v .null,
          fun v => JVal.beq v (.str "A")] ⟨[], []⟩).goodResults
        = (([fun v => JVal.beq v .null,
            fun v => JVal.beq v (.str "A")].map
            (evalConstraint [JVal.null])).filter (fun r => r.valid))
      ∧ (verify false [fun v => JVal.beq v .null,
          fun v => JVal.beq v (.str "A")] ⟨[], []⟩).badResults
        = ((([fun v => JVal.beq v .null,
            fun v => JVal.beq v (.str "A")].map
            (evalConstraint [JVal.null])).filter
            (fun r => !r.valid)).map BadResult.predicateResult)
      ∧ (verify false [fun v => JVal.beq v .null,
          fun v => JVal.beq v (.str "A")] ⟨[], []⟩).failedConstraints
        = ([fun v => JVal.beq v .null,
            fun v => JVal.beq v (.str "A")].filter
            (fun c => !(evalConstraint [JVal.null] c).valid))
      ∧ (verify false [fun v => JVal.beq v .null,
            fun v => JVal.beq v (.str "A")] ⟨[], []⟩).goodResults.length
          + (verify false [fun v => JVal.beq v .null,
            fun v => JVal.beq v (.str "A")] ⟨[], []⟩).badResults.length
        = ([fun v => JVal.beq v .null,
            fun v => JVal.beq v (.str "A")] : List Constraint).length) :=
  ⟨rfl, rfl, c5_empty_objects_verify_null false
    [fun v => JVal.beq v .null, fun v => JVal.beq v (.str "A")]
    ⟨[], []⟩ rfl rfl⟩

/-! ### C1: the strict / non-strict quantifier law -/

/-- C1 counterexample: the claimed law fails at the edges the code
handles differently.  (i) With zero objects and a constraint no value
satisfies, `k = N = 0`, yet the strict verifier is invalid (the code
substitutes the object list `[None]` and requires the constraint to hold
of `None`).  (ii) With zero objects and a constraint satisfied by `None`,
`k = 0`, yet the non-strict verifier is valid.  (iii) With duplicate
objects `[A, A]` all satisfying the constraint, `k = N = 2`, yet the
strict verifier is invalid (the validated object set holds distinct
objects, so only 1 of 2 is confirmed). -/
theorem c1_counterexample :
    ((verify true [fun v => JVal.beq v (.str "A")] ⟨[], []⟩).valid = false
      ∧ (([] : List JVal).filter (fun v => JVal.beq v (.str "A"))).length
        = ([] : List JVal).length)
    ∧ ((verify false [fun v => JVal.beq v .null] ⟨[], []⟩).valid = true
      ∧ (([] : List JVal).filter (fun v => JVal.beq v .null)).length = 0)
    ∧ ((verify true [fun v => JVal.beq v (.str "A")]
          ⟨[.str "A", .str "A"], []⟩).valid = false
      ∧ (([.str "A", .str "A"] : List JVal).filter
          (fun v => JVal.beq v (.str "A"))).length
        = ([.str "A", .str "A"] : List JVal).length) := by
  decide

/-- C1 (amended): for a verifier with one constraint `C` over an
observation of `N ≥ 1` pairwise-distinct objects of which exactly `k`
satisfy `C`, the strict verifier is valid iff `k = N` and the non-strict
verifier is valid iff `k ≥ 1`.  (The restriction to `N ≥ 1` and to
pairwise-distinct objects is forced by the counterexample: with no
objects the constraint is checked against the synthetic `None`, and with
duplicate objects the strict check counts distinct validated objects.) -/
theorem c1_quantifier_law (c : Constraint) (objs : List JVal)
    (h1 : objs ≠ []) (h2 : objs.Nodup) :
    ((verify true [c] ⟨objs, []⟩).valid = true
        ↔ (objs.filter c).length = objs.length)
    ∧ ((verify false [c] ⟨objs, []⟩).valid = true
        ↔ 1 ≤ (objs.filter c).length) := by
  have hL : objectListOf ⟨objs, []⟩ = objs := by
    unfold objectListOf
    cases objs with
    | nil => exact absurd rfl h1
    | cons x rest => rfl
  have hlv : (verifyLoop objs [c]).valid = !(objs.filter c).isEmpty := by
    rw [verifyLoop_spec]
    simp [evalConstraint_valid]
  constructor
  · simp only [verify_no_errors true [c] ⟨objs, []⟩ rfl, hL,
      validated_single objs c, hlv, Bool.and_true]
    cases hfe : (objs.filter c).isEmpty with
    | true =>
        have hf0 : objs.filter c = [] := (isEmpty_true_iff _).mp hfe
        have hpos : 0 < objs.length := List.length_pos.mpr h1
        simp [hf0]
        omega
    | false =>
        simp only [Bool.not_false, if_true, beq_iff_eq]
        constructor
        · intro hd
          have hd1 : (objs.filter c).dedup.length ≤ (objs.filter c).length :=
            (List.dedup_sublist _).length_le
          have hf1 : (objs.filter c).length ≤ objs.length :=
            List.length_filter_le c objs
          omega
        · intro hf
          have hfeq : objs.filter c = objs :=
            (List.filter_sublist objs).eq_of_length hf
          rw [hfeq, List.dedup_eq_self.mpr h2]
  · simp only [verify_no_errors false [c] ⟨objs, []⟩ rfl, hL, hlv,
      Bool.and_false, Bool.false_eq_true, if_false]
    rw [Bool.not_eq_true']
    exact isEmpty_false_iff (objs.filter c)

/-- C1 witness: two distinct objects of which one satisfies the
constraint: strict is invalid (`k = 1 ≠ 2 = N`), non-strict is valid
(`k ≥ 1`). -/
theorem c1_quantifier_law_witness :
    (([.str "A", .str "B"] : List JVal) ≠ []
      ∧ ([.str "A", .str "B"] : List JVal).Nodup)
    ∧ (((verify true [fun v => JVal.beq v (.str "A")]
          ⟨[.str "A", .str "B"], []⟩).valid = true
        ↔ (([.str "A", .str "B"] : List JVal).filter
            (fun v => JVal.beq v (.str "A"))).length
          = ([.str "A", .str "B"] : List JVal).length)
      ∧ ((verify false [fun v => JVal.beq v (.str "A")]
          ⟨[.str "A", .str "B"], []⟩).valid = true
        ↔ 1 ≤ (([.str "A", .str "B"] : List JVal).filter
            (fun v => JVal.beq v (.str "A"))).length)) :=
  ⟨⟨by decide, by decide⟩,
    c1_quantifier_law (fun v => JVal.beq v (.str "A"))
      [.str "A", .str "B"] (by decide) (by decide)⟩

/-! ### C3: the strict-mode shortfall -/

/-- C3 counterexample: a strict verifier whose only constraint passes but
which validates only 1 of 2 objects returns an invalid result whose
`comment` is `none` — the `"confirmed K of N objects"` message is not
carried by the result (the source only logs it), refuting the claim that
the result carries such a comment. -/
theorem c3_counterexample :
    (verify true [fun v => JVal.beq v (.str "A")]
        ⟨[.str "A", .str "B"], []⟩).valid = false
    ∧ (verify true [fun v => JVal.beq v (.str "A")]
        ⟨[.str "A", .str "B"], []⟩).comment = none
    ∧ (verify true [fun v => JVal.beq v (.str "A")]
        ⟨[.str "A", .str "B"], []⟩).failedConstraints.length = 0
    ∧ (verify true [fun v => JVal.beq v (.str "A")]
        ⟨[.str "A", .str "B"], []⟩).goodResults.length = 1 := by
  refine ⟨by decide, by decide, by decide, by decide⟩

/-- C3 (amended): for a strict verifier whose constraints all pass but
which validates fewer distinct objects than presented, the result is
invalid and still retains every otherwise-passing per-constraint result
with no failed constraints; the `"confirmed K of N objects"` message is
only written to the log, so the result's comment stays unset (`none`)
rather than carrying the message. -/
theorem c3_strict_shortfall (cs : List Constraint) (obs : Observation)
    (h1 : obs.errors = [])
    (h2 : (verifyLoop (objectListOf obs) cs).valid = true)
    (h3 : (validatedObjects (verifyLoop (objectListOf obs) cs).allResults).length
        ≠ (objectListOf obs).length) :
    (verify true cs obs).valid = false
    ∧ (verify true cs obs).comment = none
    ∧ (verify true cs obs).failedConstraints = []
    ∧ (verify true cs obs).goodResults
        = cs.map (evalConstraint (objectListOf obs)) := by
  have hall : cs.all (fun c => (evalConstraint (objectListOf obs) c).valid)
      = true := by
    have h4 := verifyLoop_spec (objectListOf obs) cs
    rw [h4] at h2
    exact h2
  refine ⟨?_, ?_, ?_, ?_⟩
  · simp only [verify_no_errors true cs obs h1, h2, Bool.true_and, if_true]
    simp [h3]
  · simp [verify_no_errors true cs obs h1]
  · simp only [verify_no_errors true cs obs h1, verifyLoop_spec]
    rw [List.all_eq_true] at hall
    rw [List.filter_eq_nil_iff]
    intro c hc
    simp [hall c hc]
  · simp only [verify_no_errors true cs obs h1, verifyLoop_spec]
    rw [List.all_eq_true] at hall
    apply List.filter_eq_self.mpr
    intro r hr
    obtain ⟨c, hc, hcr⟩ := List.mem_map.mp hr
    rw [← hcr]
    exact hall c hc

/-- C3 witness: the strict shortfall at the counterexample input (one
constraint matching only the first of two objects). -/
theorem c3_strict_shortfall_witness :
    ((Observation.mk [.str "A", .str "B"] []).errors = []
      ∧ (verifyLoop (objectListOf ⟨[.str "A", .str "B"], []⟩)
          [fun v => JVal.beq v (.str "A")]).valid = true
      ∧ (validatedObjects (verifyLoop
            (objectListOf ⟨[.str "A", .str "B"], []⟩)
            [fun v => JVal.beq v (.str "A")]).allResults).length
        ≠ (objectListOf ⟨[.str "A", .str "B"], []⟩).length)
    ∧ ((verify true [fun v => JVal.beq v (.str "A")]
          ⟨[.str "A", .str "B"], []⟩).valid = false
      ∧ (verify true [fun v => JVal.beq v (.str "A")]
          ⟨[.str "A", .str "B"], []⟩).comment = none
      ∧ (verify true [fun v => JVal.beq v (.str "A")]
          ⟨[.str "A", .str "B"], []⟩).failedConstraints = []
      ∧ (verify true [fun v => JVal.beq v (.str "A")]
          ⟨[.str "A", .str "B"], []⟩).goodResults
        = [fun v => JVal.beq v (.str "A")].map
            (evalConstraint (objectListOf ⟨[.str "A", .str "B"], []⟩))) :=
  ⟨⟨rfl, by decide, by decide⟩,
    c3_strict_shortfall [fun v => JVal.beq v (.str "A")]
      ⟨[.str "A", .str "B"], []⟩ rfl (by decide) (by decide)⟩
